import Mathlib

/-!
Verification of the studyTracker repository.

The repository is a small Python study-task tracker.  Its core logic lives in
`src/app.py` (category extraction from task titles), `src/utils/charts.py`
(risk scoring) and `src/utils/db_utils.py` (the CSV-backed task store and its
mutation operations, step parsing and formatting, CSV import).

Shallow embedding conventions used throughout this file:
* Python strings are modelled as `List Char` (named `Str` below); `str.strip()`
  is modelled by `trimList` over the ASCII whitespace characters, `s.split(sep)`
  by `splitChar` (one-character separators) and `splitOnList` (longer
  separators), and the `in` substring test by `containsSub`.
* Python floats are modelled as rationals (`ℚ`).  The store keeps hour fields
  as fixed two-decimal strings produced by f-string formatting; that formatting
  is modelled by `round2`, rounding a rational to a multiple of 1/100.
* The current date/time (`datetime.now(...)`) and freshly generated ids
  (`generate_ulid`) are injected as explicit parameters.
* Reading and rewriting the whole CSV file around each mutation is modelled by
  functions from the stored table (`List TaskRow`) to the new stored table.
-/

/-- Python strings are modelled as lists of characters. -/
abbrev Str := List Char

/-- Turn a Lean string literal into the `List Char` model. -/
def str (s : String) : Str := s.toList

/-- The ASCII whitespace characters stripped by Python `str.strip()`
(the model covers the common ASCII subset of Python whitespace). -/
def isWS (c : Char) : Bool :=
  c = ' ' ∨ c = '\t' ∨ c = '\n' ∨ c = '\r'

/-- Strip leading whitespace (left half of Python `str.strip()`). -/
def trimLeft (l : Str) : Str := l.dropWhile isWS

/-- Strip trailing whitespace (right half of Python `str.strip()`). -/
def trimRight (l : Str) : Str := (l.reverse.dropWhile isWS).reverse

/-- Python `str.strip()`. -/
def trimList (l : Str) : Str := trimLeft (trimRight l)

/-- Python `s.split(sep)` for a one-character separator `sep`. -/
def splitChar (c : Char) : Str → List Str
  | [] => [[]]
  | a :: rest =>
    if a = c then
      [] :: splitChar c rest
    else
      match splitChar c rest with
      | [] => [[a]]
      | h :: t => (a :: h) :: t

/-- Worker for `splitOnList`: fuel-indexed so that the definition is
structurally recursive and evaluates inside the kernel.  The fuel is always
at least the length of the remaining input, so the `0` case is unreachable. -/
def splitOnAux (sep : Str) : Nat → Str → Str → List Str
  | _, [], acc => [acc.reverse]
  | 0, l, acc => [acc.reverse ++ l]
  | fuel + 1, a :: rest, acc =>
    if sep.isPrefixOf (a :: rest) then
      acc.reverse :: splitOnAux sep fuel ((a :: rest).drop sep.length) []
    else
      splitOnAux sep fuel rest (a :: acc)

/-- Python `s.split(sep)` for an arbitrary non-empty separator string:
leftmost, non-overlapping matches. -/
def splitOnList (sep : Str) (l : Str) : List Str :=
  if sep = [] then [l] else splitOnAux sep (l.length + 1) l []

/-- Python substring test `sub in l`. -/
def containsSub (sub : Str) : Str → Bool
  | [] => sub.isPrefixOf []
  | a :: t => sub.isPrefixOf (a :: t) || containsSub sub t

/-- Python `"sep".join(parts)`. -/
def joinWith (sep : Str) (parts : List Str) : Str :=
  List.intercalate sep parts

/-- Category extraction, translated from `extract_category` in `src/app.py`
(lines 89-101).  The code first strips the whole title, then applies the
dash / bracket / slash fallback to the stripped title. -/
def extract_category (title : Str) : Str :=
  let t := trimList title
  if containsSub (str " - ") t then
    let c := trimList ((splitOnList (str " - ") t).headD [])
    if c = [] then str "Uncategorized" else c
  else if containsSub (str "(") t ∧ containsSub (str ")") t then
    let c := trimList ((splitChar '(' t).headD [])
    if c = [] then str "Uncategorized" else c
  else
    let parts := (splitChar '/' t).map trimList
    if parts.headD [] = [] then str "Uncategorized" else parts.headD []

/-- The ordered-fallback category policy exactly as worded in section 4.1 of
the spec, applied to a given title text (the spec does not pre-strip the
title).  This definition follows the words of the spec and is compared with
`extract_category`, which is translated from the source. -/
def categoryPolicy (t : Str) : Str :=
  if containsSub (str " - ") t then
    let c := trimList ((splitOnList (str " - ") t).headD [])
    if c = [] then str "Uncategorized" else c
  else if containsSub (str "(") t ∧ containsSub (str ")") t then
    let c := trimList ((splitChar '(' t).headD [])
    if c = [] then str "Uncategorized" else c
  else
    let parts := (splitChar '/' t).map trimList
    if parts.headD [] = [] then str "Uncategorized" else parts.headD []

/-- The result of `risk_score`: either `+infinity` (Python `float("inf")`) or
a finite rational. -/
inductive RiskVal where
  | inf : RiskVal
  | fin (q : ℚ) : RiskVal
  deriving DecidableEq

/-- Risk score, translated from `risk_score` in `src/utils/charts.py`
(lines 26-29):
`remaining = max(0.0, estimated_hours - hours_logged)`,
`available = max(0.0, days_until_due * max(0.0, daily_capacity_hours))`,
`inf` if `available == 0` else `remaining / available`. -/
def risk_score (estimated_hours hours_logged days_until_due daily_capacity_hours : ℚ) :
    RiskVal :=
  let remaining := max 0 (estimated_hours - hours_logged)
  let available := max 0 (days_until_due * max 0 daily_capacity_hours)
  if available = 0 then RiskVal.inf else RiskVal.fin (remaining / available)

/-- Days until due, translated from `tasks_risk_dataframe` in
`src/utils/charts.py` (line 40): the calendar-day difference
`(due_date - today).days`, clipped below at 0.  Dates are modelled as
day numbers. -/
def daysUntilDue (due today : ℤ) : ℤ := max 0 (due - today)

/-- The risk formula exactly as worded in section 4.3 of the spec:
`remaining_hours = max(0, estimated_hours - hours_logged)`,
`days_until_due = max(0, due_date - today in days)`,
`available_hours = days_until_due * daily_capacity_hours`,
`risk = +infinity if available_hours == 0 else remaining_hours / available_hours`.
This definition follows the words of the spec and is compared with the
source translation `risk_score`. -/
def riskSpec (estimated_hours hours_logged : ℚ) (due today : ℤ)
    (daily_capacity_hours : ℚ) : RiskVal :=
  let remaining := max 0 (estimated_hours - hours_logged)
  let days : ℚ := max 0 ((due : ℚ) - (today : ℚ))
  let available := days * daily_capacity_hours
  if available = 0 then RiskVal.inf else RiskVal.fin (remaining / available)

/-- Python f-string formatting `f"{x:.2f}"` writes two decimal places; the
stored string denotes the rational `round2 x`.  Rounding is modelled half-up;
no claim depends on the tie-breaking mode, since every stored value is
already a multiple of 1/100. -/
def round2 (q : ℚ) : ℚ := ((⌊q * 100 + 1 / 2⌋ : ℤ) : ℚ) / 100

/-- A rational with at most two decimal places: the form of every hour value
that the store itself writes. -/
def TwoDec (q : ℚ) : Prop := ∃ n : ℤ, q = (n : ℚ) / 100

/-- A parsed step record, translated from the dicts built by `parse_steps` in
`src/utils/db_utils.py` (lines 547-552). -/
structure Step where
  id : Str
  description : Str
  completed : Bool
  order : Nat
  deriving DecidableEq

/-- The id string `f"step_{i}"` given to the step parsed from line `i`. -/
def stepIdL (i : Nat) : Str := str "step_" ++ (Nat.repr i).toList

/-- The one-character prefix `"✓"` (completed) or `"-"` (pending) used when a
step is serialized. -/
def mOf (s : Step) : Char := if s.completed then '✓' else '-'

/-- The serialized line for one step: `f"{status} {description}"`
(`format_steps`, line 564). -/
def lineOf (s : Step) : Str := mOf s :: ' ' :: s.description

/-- Worker for `parse_steps`: Python `for i, line in enumerate(lines)`; the
index `i` counts every line, and only lines starting with `-` or `✓` after
stripping produce a step. -/
def parseLines : Nat → List Str → List Step
  | _, [] => []
  | i, line :: rest =>
    let l := trimList line
    if l.head? = some '-' ∨ l.head? = some '✓' then
      { id := stepIdL i, description := trimList (l.drop 1),
        completed := l.head? == some '✓', order := i } :: parseLines (i + 1) rest
    else
      parseLines (i + 1) rest

/-- Step list parsing, translated from `parse_steps` in
`src/utils/db_utils.py` (lines 533-553): empty or all-whitespace blobs give
no steps, otherwise the stripped blob is split into lines. -/
def parse_steps (s : Str) : List Step :=
  if trimList s = [] then [] else parseLines 0 (splitChar '\n' (trimList s))

/-- Insert one step into a list sorted by the `order` key, keeping the
inserted element before equal keys: together with `sortByOrder` this models
the stable Python `sorted(steps_list, key=lambda x: x.get("order", 0))`. -/
def insertOrd (s : Step) : List Step → List Step
  | [] => [s]
  | b :: t => if s.order ≤ b.order then s :: b :: t else b :: insertOrd s t

/-- Stable insertion sort by the `order` key. -/
def sortByOrder : List Step → List Step
  | [] => []
  | a :: t => insertOrd a (sortByOrder t)

/-- Python `"\n".join(lines)`. -/
def joinNL : List Str → Str
  | [] => []
  | [l] => l
  | l :: ls => l ++ '\n' :: joinNL ls

/-- Step list formatting, translated from `format_steps` in
`src/utils/db_utils.py` (lines 556-565). -/
def format_steps (steps : List Step) : Str :=
  if steps = [] then [] else joinNL ((sortByOrder steps).map lineOf)

/-- Reindex a step list from position `k` on: what `parse_steps` recovers
after a `format_steps` round trip (ids and orders become consecutive
from `k`, descriptions and completion flags are kept). -/
def reId : Nat → List Step → List Step
  | _, [] => []
  | k, s :: t => { s with id := stepIdL k, order := k } :: reId (k + 1) t

/-- Description conditions under which a step line survives the round trip:
single-line, with no leading or trailing whitespace. -/
def descOK (s : Step) : Prop :=
  trimLeft s.description = s.description ∧
    trimRight s.description = s.description ∧ '\n' ∉ s.description

/-- Well-formedness of a step list from position `k` on, per claim C7: each
element has id `"step_" ++ position`, order equal to its position, and a
single-line description without leading or trailing whitespace. -/
def wfFrom : Nat → List Step → Bool
  | _, [] => true
  | k, s :: t =>
    s.id == stepIdL k && s.order == k &&
      (trimLeft s.description == s.description &&
        trimRight s.description == s.description &&
        !(s.description.contains '\n')) &&
      wfFrom (k + 1) t

/-- Well-formedness of a whole step list (positions from 0). -/
def wfSteps (l : List Step) : Bool := wfFrom 0 l

/-- A stored task row, one line of `data/todos.csv` with headers `CSV_HEADERS`
(`src/utils/db_utils.py`, lines 19-30).  Text fields keep their stored
strings; the two hour fields are kept as the rationals denoted by their fixed
two-decimal strings. -/
structure TaskRow where
  id : Str
  title : Str
  due_date : Str
  estimated_hours : ℚ
  hours_logged : ℚ
  priority : Str
  status : Str
  steps : Str
  created_at : Str
  completed_at : Str
  deriving DecidableEq

/-- Modify the first element satisfying `p`, leaving the rest unchanged: the
`for row in rows: if ...: ...; break` loop pattern used by every single-record
mutation in `src/utils/db_utils.py`. -/
def updateFirst {α : Type} (p : α → Bool) (f : α → α) : List α → List α
  | [] => []
  | x :: t => if p x then f x :: t else x :: updateFirst p f t

/-- Translation of `add_todo` (`src/utils/db_utils.py`, lines 167-183):
append a fresh row.
`now` is the injected current timestamp and `genId` the injected fresh id. -/
def add_todo (now genId : Str) (title due_date : Str) (estimated_hours : ℚ)
    (priority : Str) (steps : Str) (rows : List TaskRow) : List TaskRow :=
  rows ++ [{
    id := genId
    title := trimList title
    due_date := due_date
    estimated_hours := round2 estimated_hours
    hours_logged := round2 0
    priority := priority
    status := str "todo"
    steps := trimList steps
    created_at := now
    completed_at := [] }]

/-- The per-row effect of `update_todo_status` (`src/utils/db_utils.py`,
lines 186-207) on the matching row. -/
def statusTransform (today status : Str) (r : TaskRow) : TaskRow :=
  if status = str "done" then
    let r1 := { r with status := status, completed_at := today }
    if r1.hours_logged = 0 then
      if r1.estimated_hours = 0 then
        { r1 with estimated_hours := 1, hours_logged := round2 1 }
      else
        { r1 with hours_logged := round2 r1.estimated_hours }
    else r1
  else
    { r with status := status, completed_at := [] }

/-- Translation of `update_todo_status` (`src/utils/db_utils.py`,
lines 186-207).  `today` is
the injected current local date string. -/
def update_todo_status (today todo_id status : Str)
    (rows : List TaskRow) : List TaskRow :=
  updateFirst (fun r => r.id == todo_id) (statusTransform today status) rows

/-- Translation of `update_todo_hours` (`src/utils/db_utils.py`,
lines 210-217). -/
def update_todo_hours (todo_id : Str) (hours_delta : ℚ)
    (rows : List TaskRow) : List TaskRow :=
  updateFirst (fun r => r.id == todo_id)
    (fun r => { r with
      hours_logged := round2 (max 0 (r.hours_logged + hours_delta)) }) rows

/-- Translation of `update_todo_estimated_hours` (`src/utils/db_utils.py`,
lines 220-229). -/
def update_todo_estimated_hours (todo_id : Str) (estimated_hours : ℚ)
    (rows : List TaskRow) : List TaskRow :=
  updateFirst (fun r => r.id == todo_id)
    (fun r => { r with
      estimated_hours := round2 (max 0 estimated_hours) }) rows

/-- Translation of `update_todo_due_date` (`src/utils/db_utils.py`,
lines 232-243).  The code
turns the argument into a string (`strftime` for date objects, `str`
otherwise); the model takes that final string. -/
def update_todo_due_date (todo_id due_date : Str)
    (rows : List TaskRow) : List TaskRow :=
  updateFirst (fun r => r.id == todo_id)
    (fun r => { r with due_date := due_date }) rows

/-- The argument of `update_todo_completed_at`: either a date object (with its
`strftime("%Y-%m-%d")` rendering) or any other value (with its `str`
rendering, empty for falsy values). -/
inductive DateArg where
  | dateObj (iso : Str)
  | text (s : Str)

/-- Translation of `update_todo_completed_at` (`src/utils/db_utils.py`,
lines 246-267).
`parseDateO` injects the external `dateutil` parser: `some d` is a successful
parse rendered as a date-only ISO string, `none` a parse failure. -/
def update_todo_completed_at (parseDateO : Str → Option Str)
    (todo_id : Str) (v : DateArg) (rows : List TaskRow) : List TaskRow :=
  updateFirst (fun r => r.id == todo_id)
    (fun r =>
      match v with
      | DateArg.dateObj iso => { r with completed_at := iso }
      | DateArg.text s =>
        let text := if s = [] then ([] : Str) else trimList s
        if text = [] then { r with completed_at := [] }
        else
          match parseDateO text with
          | some d => { r with completed_at := d }
          | none => { r with completed_at := text.take 10 }) rows

/-- Translation of `delete_todo` (`src/utils/db_utils.py`,
lines 270-273). -/
def delete_todo (todo_id : Str) (rows : List TaskRow) : List TaskRow :=
  rows.filter (fun r => !(r.id == todo_id))

/-- The per-row effect of `update_todo_step` (`src/utils/db_utils.py`,
lines 568-595) on the matching row: set the named step, re-serialize, and
auto-complete the task when every step of the updated list is completed. -/
def stepTransform (today step_id : Str) (completed : Bool) (r : TaskRow) :
    TaskRow :=
  let steps1 := updateFirst (fun s => s.id == step_id)
    (fun s => { s with completed := completed }) (parse_steps r.steps)
  let r1 := { r with steps := format_steps steps1 }
  if steps1 ≠ [] ∧ steps1.all (fun s => s.completed) = true then
    let r2 := { r1 with status := str "done", completed_at := today }
    if r2.hours_logged = 0 then
      if r2.estimated_hours = 0 then
        { r2 with estimated_hours := 1, hours_logged := round2 1 }
      else
        { r2 with hours_logged := round2 r2.estimated_hours }
    else r2
  else r1

/-- Translation of `update_todo_step` (`src/utils/db_utils.py`,
lines 568-595). -/
def update_todo_step (today todo_id step_id : Str) (completed : Bool)
    (rows : List TaskRow) : List TaskRow :=
  updateFirst (fun r => r.id == todo_id)
    (stepTransform today step_id completed) rows

/-- Decimal value of a digit string. -/
def digitsVal (l : Str) : Nat :=
  l.foldl (fun acc c => acc * 10 + (c.toNat - Char.toNat '0')) 0

/-- All characters are decimal digits. -/
def allDigits (l : Str) : Bool := l.all (fun c => c.isDigit)

/-- The mantissa of a decimal literal: digits with an optional decimal point
and at least one digit overall. -/
def mantissaVal (m : Str) : Option ℚ :=
  match splitChar '.' m with
  | [a] => if a ≠ [] ∧ allDigits a = true then some ((digitsVal a : ℚ)) else none
  | [a, b] =>
    if (a ++ b) ≠ [] ∧ allDigits a = true ∧ allDigits b = true then
      some ((digitsVal a : ℚ) + (digitsVal b : ℚ) / (10 : ℚ) ^ b.length)
    else none
  | _ => none

/-- The exponent of a decimal literal: optional sign and nonempty digits. -/
def expVal (ex : Str) : Option ℤ :=
  let sd : ℤ × Str :=
    match ex with
    | '+' :: r => (1, r)
    | '-' :: r => (-1, r)
    | _ => (1, ex)
  if sd.2 ≠ [] ∧ allDigits sd.2 = true then
    some (sd.1 * (digitsVal sd.2 : ℤ))
  else none

/-- Python `float(str)` on decimal literals: optional surrounding whitespace,
optional sign, digits with optional decimal point and optional exponent.
`none` models a `ValueError`.  The special literals (`inf`, `nan`) and
underscore digit separators are outside the modelled fragment; no claim
depends on them. -/
def pyFloat (s : Str) : Option ℚ :=
  let sd : ℚ × Str :=
    match trimList s with
    | '+' :: r => (1, r)
    | '-' :: r => (-1, r)
    | t => (1, t)
  match splitChar 'e' (sd.2.map Char.toLower) with
  | [m] => (mantissaVal m).map (fun v => sd.1 * v)
  | [m, ex] =>
    match mantissaVal m, expVal ex with
    | some v, some e => some (sd.1 * v * (10 : ℚ) ^ e)
    | _, _ => none
  | _ => none

/-- Model of `float(row.get(column) or 0)`: a missing or empty field
coerces to 0,
anything else goes through `float`. -/
def pyFloatOrZero (s : Str) : Option ℚ :=
  if s = [] then some 0 else pyFloat s

/-- A CSV row as produced by `csv.DictReader`: an association list from column
name to raw field text (a missing column reads as the empty string, exactly
like the `row.get(c) or default` accesses in the code). -/
abbrev CsvRow := List (Str × Str)

/-- Field lookup in a CSV row. -/
def getCol (row : CsvRow) (k : Str) : Str :=
  ((row.find? (fun p => p.1 == k)).map Prod.snd).getD []

/-- The required import columns (`import_todos_csv`, line 120). -/
def requiredCols : List Str :=
  [str "title", str "due_date", str "estimated_hours", str "priority",
    str "status"]

/-- The alternative title triple (`import_todos_csv`, line 120). -/
def tripleCols : List Str := [str "category", str "project", str "task"]

/-- Translation of `missing_core` (`import_todos_csv`, line 120): a
required column counts
as missing when it is absent from the header and the category/project/task
triple is not wholly present. -/
def missingCore (fieldnames : List Str) : List Str :=
  requiredCols.filter (fun c =>
    !(fieldnames.contains c) &&
      !(tripleCols.all (fun tc => fieldnames.contains tc)))

/-- The effective title of an imported row (`import_todos_csv`,
lines 127-134): the stripped title column, or the nonempty stripped parts of
the category/project/task triple joined with `" / "`. -/
def effTitle (row : CsvRow) : Str :=
  let t0 := trimList (getCol row (str "title"))
  if t0 = [] then
    joinWith (str " / ")
      (([getCol row (str "category"), getCol row (str "project"),
          getCol row (str "task")].map trimList).filter (fun p => !p.isEmpty))
  else t0

/-- The Python exceptions the import model can raise. -/
inductive PyExn where
  | valueError : PyExn
  deriving DecidableEq

/-- The import mode; `assert mode in ("append", "replace")` restricts the
argument to these two values. -/
inductive Mode where
  | append : Mode
  | replace : Mode
  deriving DecidableEq

/-- The summary dict returned by `import_todos_csv` (`ok`/`error`/`added`/
`total`; absent keys are modelled by `false`, the empty string and 0). -/
structure ImportRes where
  ok : Bool
  error : Str
  added : Nat
  total : Nat
  deriving DecidableEq

/-- One iteration of the import loop (`import_todos_csv`, lines 126-161):
skip rows with an empty effective title, normalize `completed_at`, coerce the
numeric fields (raising `ValueError` on malformed non-blank text), and build
the new stored row.  `idGen` is the fresh id used when the id field is blank,
`parseDateO` the injected external date parser. -/
def importRow (now idGen : Str) (parseDateO : Str → Option Str)
    (row : CsvRow) : Except PyExn (Option TaskRow) :=
  let title1 := effTitle row
  if title1 = [] then Except.ok none
  else
    let car := trimList (getCol row (str "completed_at"))
    let cnorm : Str :=
      if car = [] then []
      else
        match parseDateO car with
        | some d => d
        | none => car.take 10
    match pyFloatOrZero (getCol row (str "estimated_hours")) with
    | none => Except.error PyExn.valueError
    | some est =>
      match pyFloatOrZero (getCol row (str "hours_logged")) with
      | none => Except.error PyExn.valueError
      | some hours =>
        Except.ok (some {
          id :=
            (let i := trimList (getCol row (str "id"));
              if i = [] then idGen else i),
          title := title1,
          due_date := trimList (getCol row (str "due_date")),
          estimated_hours := round2 est,
          hours_logged := round2 hours,
          priority :=
            (let p := getCol row (str "priority");
              let p1 := if p = [] then str "Medium" else p;
              let p2 := trimList p1;
              if p2 = [] then str "Medium" else p2),
          status :=
            (let s0 := getCol row (str "status");
              let s1 := if s0 = [] then str "todo" else s0;
              let s2 := trimList s1;
              if s2 = [] then str "todo" else s2),
          steps := trimList (getCol row (str "steps")),
          created_at :=
            (let ca := getCol row (str "created_at");
              if ca = [] then now else ca),
          completed_at := cnorm })

/-- The import loop over all CSV rows, threading the accumulated table and
the added count; `i` indexes the injected fresh ids. -/
def importRows (now : Str) (genId : Nat → Str) (parseDateO : Str → Option Str) :
    Nat → List CsvRow → List TaskRow → Nat → Except PyExn (List TaskRow × Nat)
  | _, [], acc, added => Except.ok (acc, added)
  | i, row :: rest, acc, added =>
    match importRow now (genId i) parseDateO row with
    | Except.error e => Except.error e
    | Except.ok none => importRows now genId parseDateO (i + 1) rest acc added
    | Except.ok (some r) =>
      importRows now genId parseDateO (i + 1) rest (acc ++ [r]) (added + 1)

/-- Translation of `import_todos_csv` (`src/utils/db_utils.py`,
lines 109-164).  The result
pairs the returned summary with the stored table after the call; an
`Except.error` is an exception escaping the function, in which case nothing
is written. -/
def import_todos_csv (now : Str) (genId : Nat → Str)
    (parseDateO : Str → Option Str) (fieldnames : List Str)
    (rows : List CsvRow) (mode : Mode) (existing : List TaskRow) :
    Except PyExn (ImportRes × List TaskRow) :=
  let missing := missingCore fieldnames
  if missing = [] then
    let base := match mode with | Mode.replace => [] | Mode.append => existing
    match importRows now genId parseDateO 0 rows base 0 with
    | Except.error e => Except.error e
    | Except.ok (tbl, added) =>
      Except.ok ({
        ok := true
        error := []
        added := added
        total := tbl.length }, tbl)
  else
    Except.ok ({
      ok := false
      error := str "Missing required columns: " ++ joinWith (str ", ") missing
      added := 0
      total := 0 }, existing)

/-- The row-local part of the section 3 data-model invariant: non-negative
hours, `completed_at` empty on todo tasks, and status done whenever the step
list is non-empty with every step completed. -/
def RowInv (r : TaskRow) : Prop :=
  0 ≤ r.hours_logged ∧ 0 ≤ r.estimated_hours ∧
    (r.status = str "todo" → r.completed_at = []) ∧
    (parse_steps r.steps ≠ [] ∧
        (parse_steps r.steps).all (fun s => s.completed) = true →
      r.status = str "done")

/-- The data-model invariant of section 3 of the spec: every row satisfies
`RowInv` and ids are unique across the table. -/
def Invariant (rows : List TaskRow) : Prop :=
  (∀ r ∈ rows, RowInv r) ∧ (rows.map (fun r => r.id)).Nodup

instance (r : TaskRow) : Decidable (RowInv r) := by
  unfold RowInv
  infer_instance

instance (rows : List TaskRow) : Decidable (Invariant rows) := by
  unfold Invariant
  infer_instance

/-- The row that `import_todos_csv` builds from the CSV row
`[title = "t", id = "a"]` with empty injected timestamp: used to exhibit
an import that duplicates an existing id. -/
def impRow : TaskRow := {
  id := str "a"
  title := str "t"
  due_date := []
  estimated_hours := round2 0
  hours_logged := round2 0
  priority := str "Medium"
  status := str "todo"
  steps := []
  created_at := []
  completed_at := [] }

/-- A concrete sample row builder used by witness theorems and
counterexamples. -/
def wrow (est hours : ℚ) (status steps completed_at : Str) : TaskRow := {
  id := str "a"
  title := str "t"
  due_date := str "2025-01-10"
  estimated_hours := est
  hours_logged := hours
  priority := str "Medium"
  status := status
  steps := steps
  created_at := []
  completed_at := completed_at }

/-- The CSV header of the store with the `priority` column removed and no
category/project/task triple: the concrete header of the spec example for the
missing-column check. -/
def hdrNoPriority : List Str :=
  [str "id", str "title", str "due_date", str "estimated_hours",
    str "hours_logged", str "status", str "steps", str "created_at",
    str "completed_at"]

/-- C2 counterexample: the claim applies the policy to the raw title, but
`extract_category` strips the title first.  On the title `"x - "` the raw
title contains `" - "` (so the claim demands the trimmed prefix `"x"`), while
the code sees the stripped title `"x -"`, which does not contain `" - "`, and
returns `"x -"`. -/
theorem C2_counterexample :
    extract_category (str "x - ") = str "x -" ∧
    categoryPolicy (str "x - ") = str "x" ∧
    extract_category (str "x - ") ≠ categoryPolicy (str "x - ") := by
  refine ⟨by decide, by decide, by decide⟩

/-- C2 amended: `extract_category` follows the ordered fallback of section 4.1
applied to the whitespace-stripped title, with first match winning and the
empty-category fallback to `"Uncategorized"`. -/
theorem C2_trimmed_policy (title : Str) :
    extract_category title = categoryPolicy (trimList title) := rfl

/-- C3 counterexample: on the spec example title the dash rule fires first,
so the category keeps the parenthesised part; the claimed value
`"Cloud Computing"` is wrong. -/
theorem C3_counterexample :
    extract_category (str "Cloud Computing (Project) - Draft slides") ≠
      str "Cloud Computing" := by decide

/-- C3 amended: `extract_category` applied to
`"Cloud Computing (Project) - Draft slides"` returns
`"Cloud Computing (Project)"` (the dash rule fires first and the text before
the first `" - "` is kept whole, including the bracketed part). -/
theorem C3_value :
    extract_category (str "Cloud Computing (Project) - Draft slides") =
      str "Cloud Computing (Project)" := by decide

/-- C1: for a non-negative daily capacity, `risk_score` applied to the
computed days-until-due equals the section 4.3 formula `riskSpec`; the
concrete example task (estimated=4, logged=1, due=today+2, capacity=2) has
risk 3/4; and a task due today or earlier with positive remaining hours has
risk +infinity. -/
theorem C1_risk_score_spec (est logged cap : ℚ) (due today : ℤ)
    (hcap : 0 ≤ cap) :
    risk_score est logged ((daysUntilDue due today : ℤ) : ℚ) cap =
        riskSpec est logged due today cap ∧
      risk_score 4 1 ((daysUntilDue (today + 2) today : ℤ) : ℚ) 2 =
        RiskVal.fin (3 / 4) ∧
      (due ≤ today → 0 < max 0 (est - logged) →
        risk_score est logged ((daysUntilDue due today : ℤ) : ℚ) cap =
          RiskVal.inf) := by
  have hd : ((daysUntilDue due today : ℤ) : ℚ) = max 0 ((due : ℚ) - (today : ℚ)) := by
    simp only [daysUntilDue]
    push_cast
    rfl
  have hcap' : max 0 cap = cap := max_eq_right hcap
  have hdays : (0 : ℚ) ≤ max 0 ((due : ℚ) - (today : ℚ)) := le_max_left _ _
  refine ⟨?_, ?_, ?_⟩
  · have havail : max 0 (max 0 ((due : ℚ) - (today : ℚ)) * cap) =
        max 0 ((due : ℚ) - (today : ℚ)) * cap :=
      max_eq_right (mul_nonneg hdays hcap)
    simp only [risk_score, riskSpec, hd, hcap', havail]
  · have h2 : daysUntilDue (today + 2) today = 2 := by
      simp only [daysUntilDue, add_sub_cancel_left]
      rfl
    rw [h2]
    norm_num [risk_score]
  · intro hdue hrem
    have h0 : daysUntilDue due today = 0 := by
      simp only [daysUntilDue]
      omega
    rw [h0]
    norm_num [risk_score]

/-- C1 witness: the theorem applied at the concrete inputs est=4, logged=1,
capacity=2, due=0, today=0. -/
theorem C1_risk_score_spec_witness :
    (0 : ℚ) ≤ 2 ∧
      (risk_score 4 1 ((daysUntilDue 0 0 : ℤ) : ℚ) 2 = riskSpec 4 1 0 0 2 ∧
        risk_score 4 1 ((daysUntilDue (0 + 2) 0 : ℤ) : ℚ) 2 =
          RiskVal.fin (3 / 4) ∧
        ((0 : ℤ) ≤ 0 → 0 < max 0 ((4 : ℚ) - 1) →
          risk_score 4 1 ((daysUntilDue 0 0 : ℤ) : ℚ) 2 = RiskVal.inf)) :=
  ⟨by norm_num, C1_risk_score_spec 4 1 2 0 0 (by norm_num)⟩

theorem trimRight_eq_rdropWhile (l : Str) : trimRight l = l.rdropWhile isWS := rfl

theorem trimLeft_cons_of_neg {a : Char} (h : ¬ isWS a = true) (l : Str) :
    trimLeft (a :: l) = a :: l := by
  simp [trimLeft, List.dropWhile_cons, h]

theorem trimRight_eq_nil_iff {l : Str} :
    trimRight l = [] ↔ ∀ c ∈ l, isWS c = true := by
  rw [trimRight_eq_rdropWhile]
  exact List.rdropWhile_eq_nil_iff

theorem dropWhile_append_list (p : Char → Bool) (l1 l2 : Str) :
    (l1 ++ l2).dropWhile p =
      if l1.dropWhile p = [] then l2.dropWhile p else l1.dropWhile p ++ l2 := by
  induction l1 with
  | nil => simp
  | cons a t ih =>
    by_cases h : p a
    · simpa [List.dropWhile_cons, h] using ih
    · simp [List.dropWhile_cons, h]

theorem trimRight_append (l l' : Str) (h : trimRight l' ≠ []) :
    trimRight (l ++ l') = l ++ trimRight l' := by
  have h' : l'.reverse.dropWhile isWS ≠ [] := by
    intro hh
    apply h
    unfold trimRight
    rw [hh]
    rfl
  unfold trimRight
  rw [List.reverse_append, dropWhile_append_list, if_neg h', List.reverse_append,
    List.reverse_reverse]

theorem trimRight_cons (a : Char) (l : Str) :
    trimRight (a :: l) =
      if trimRight l = [] then (if isWS a then [] else [a]) else a :: trimRight l := by
  have hal : a :: l = [a] ++ l := rfl
  by_cases h : trimRight l = []
  · have h' : l.reverse.dropWhile isWS = [] := by
      have := h
      unfold trimRight at this
      rwa [List.reverse_eq_nil_iff] at this
    rw [hal, if_pos h]
    unfold trimRight
    rw [List.reverse_append, dropWhile_append_list, if_pos h']
    by_cases ha : isWS a <;> simp [List.dropWhile_cons, ha]
  · rw [hal, if_neg h]
    exact trimRight_append [a] l h

theorem trimLeft_eq_nil_of_all {l : Str} (h : ∀ c ∈ l, isWS c = true) :
    trimLeft l = [] :=
  List.dropWhile_eq_nil_iff.mpr h

theorem trimLeft_trimRight_comm (l : Str) :
    trimLeft (trimRight l) = trimRight (trimLeft l) := by
  induction l with
  | nil => rfl
  | cons a t ih =>
    rw [trimRight_cons]
    by_cases h : trimRight t = []
    · rw [if_pos h]
      by_cases ha : isWS a
      · have hall : ∀ c ∈ t, isWS c = true := trimRight_eq_nil_iff.mp h
        have h1 : trimLeft (a :: t) = trimLeft t := by
          simp [trimLeft, List.dropWhile_cons, ha]
        have h2 : trimLeft t = [] := trimLeft_eq_nil_of_all hall
        rw [if_pos ha, h1, h2]
        rfl
      · rw [if_neg ha, trimLeft_cons_of_neg (by simpa using ha),
          trimLeft_cons_of_neg (by simpa using ha), trimRight_cons, if_pos h, if_neg ha]
    · rw [if_neg h]
      by_cases ha : isWS a
      · have h1 : trimLeft (a :: trimRight t) = trimLeft (trimRight t) := by
          simp [trimLeft, List.dropWhile_cons, ha]
        have h2 : trimLeft (a :: t) = trimLeft t := by
          simp [trimLeft, List.dropWhile_cons, ha]
        rw [h1, h2, ih]
      · rw [trimLeft_cons_of_neg (by simpa using ha),
          trimLeft_cons_of_neg (by simpa using ha), trimRight_cons, if_neg h]

theorem trimLeft_idem (l : Str) : trimLeft (trimLeft l) = trimLeft l :=
  List.dropWhile_idempotent _ _

theorem trimRight_idem (l : Str) : trimRight (trimRight l) = trimRight l := by
  rw [trimRight_eq_rdropWhile, trimRight_eq_rdropWhile]
  exact List.rdropWhile_idempotent _ _

theorem trimList_trimRight (l : Str) : trimList (trimRight l) = trimList l := by
  unfold trimList
  rw [trimRight_idem]

theorem trimLeft_trimList (l : Str) : trimLeft (trimList l) = trimList l := by
  unfold trimList
  rw [trimLeft_idem]

theorem trimRight_trimList (l : Str) : trimRight (trimList l) = trimList l := by
  unfold trimList
  rw [← trimLeft_trimRight_comm, trimRight_idem]

theorem splitChar_ne_nil (c : Char) (l : Str) : splitChar c l ≠ [] := by
  cases l with
  | nil => simp [splitChar]
  | cons a t =>
    by_cases h : a = c
    · simp [splitChar, h]
    · simp only [splitChar, if_neg h]
      cases hs : splitChar c t <;> simp

theorem splitChar_of_not_mem {c : Char} {l : Str} (h : c ∉ l) : splitChar c l = [l] := by
  induction l with
  | nil => rfl
  | cons a t ih =>
    have ha : ¬ a = c := by
      intro e
      exact h (e ▸ List.mem_cons_self a t)
    have ht : c ∉ t := fun m => h (List.mem_cons_of_mem _ m)
    simp [splitChar, if_neg ha, ih ht]

theorem splitChar_append_cons {c : Char} {A : Str} (h : c ∉ A) (B : Str) :
    splitChar c (A ++ c :: B) = A :: splitChar c B := by
  induction A with
  | nil => simp [splitChar]
  | cons a t ih =>
    have ha : ¬ a = c := by
      intro e
      exact h (e ▸ List.mem_cons_self a t)
    have ht : c ∉ t := fun m => h (List.mem_cons_of_mem _ m)
    simp only [List.cons_append, splitChar, List.append_eq, if_neg ha, ih ht]

theorem not_mem_of_mem_splitChar {c : Char} {l x : Str}
    (hx : x ∈ splitChar c l) : c ∉ x := by
  induction l generalizing x with
  | nil =>
    simp only [splitChar, List.mem_singleton] at hx
    subst hx
    simp
  | cons a t ih =>
    by_cases h : a = c
    · simp only [splitChar, if_pos h, List.mem_cons] at hx
      rcases hx with rfl | hx
      · simp
      · exact ih hx
    · simp only [splitChar, if_neg h] at hx
      cases hs : splitChar c t with
      | nil => exact absurd hs (splitChar_ne_nil c t)
      | cons y ys =>
        rw [hs] at hx
        rcases List.mem_cons.mp hx with rfl | hx2
        · have hy : c ∉ y := ih (by rw [hs]; exact List.mem_cons_self y ys)
          intro hc
          rcases List.mem_cons.mp hc with rfl | hc2
          · exact h rfl
          · exact hy hc2
        · exact ih (by rw [hs]; exact List.mem_cons_of_mem _ hx2)

theorem subset_of_trimLeft {l : Str} : trimLeft l ⊆ l :=
  (List.dropWhile_suffix isWS).sublist.subset

theorem subset_of_trimRight {l : Str} : trimRight l ⊆ l := by
  rw [trimRight_eq_rdropWhile]
  exact (List.rdropWhile_prefix isWS l).sublist.subset

theorem subset_of_trimList {l : Str} : trimList l ⊆ l :=
  fun _ hx => subset_of_trimRight (subset_of_trimLeft hx)

theorem isWS_mOf (s : Step) : isWS (mOf s) = false := by
  cases hc : s.completed <;> simp [mOf, hc, isWS]

theorem trimList_space_cons {d : Str} (h1 : trimLeft d = d) (h2 : trimRight d = d) :
    trimList (' ' :: d) = d := by
  by_cases hd : d = []
  · subst hd
    rfl
  · have hr : trimRight (' ' :: d) = ' ' :: d := by
      rw [trimRight_cons, if_neg (by rw [h2]; exact hd)]
      rw [h2]
    unfold trimList
    rw [hr]
    have : trimLeft (' ' :: d) = trimLeft d := by
      simp [trimLeft, List.dropWhile_cons, isWS]
    rw [this, h1]

theorem trimList_lineOf (s : Step)
    (_h1 : trimLeft s.description = s.description)
    (h2 : trimRight s.description = s.description) :
    trimList (lineOf s) =
      if s.description = [] then [mOf s] else lineOf s := by
  have hm : isWS (mOf s) = false := isWS_mOf s
  by_cases hd : s.description = []
  · rw [if_pos hd]
    unfold lineOf
    rw [hd]
    have hr : trimRight [mOf s, ' '] = [mOf s] := by
      rw [show [mOf s, ' '] = mOf s :: [' '] from rfl, trimRight_cons]
      have h1' : trimRight [' '] = [] := rfl
      rw [if_pos h1', if_neg (by rw [hm]; exact Bool.false_ne_true)]
    unfold trimList
    rw [hr]
    exact trimLeft_cons_of_neg (by rw [hm]; exact Bool.false_ne_true) []
  · rw [if_neg hd]
    have hr : trimRight (lineOf s) = lineOf s := by
      have : lineOf s = [mOf s, ' '] ++ s.description := rfl
      rw [this, trimRight_append _ _ (by rw [h2]; exact hd), h2]
    unfold trimList
    rw [hr]
    unfold lineOf
    exact trimLeft_cons_of_neg (by rw [hm]; exact Bool.false_ne_true) _

theorem parseLines_cons_step (i : Nat) (x : Str) (rest : List Str) (s : Step)
    (h1 : trimLeft s.description = s.description)
    (h2 : trimRight s.description = s.description)
    (hx : trimList x = trimList (lineOf s)) :
    parseLines i (x :: rest) =
      { id := stepIdL i, description := s.description, completed := s.completed,
        order := i } :: parseLines (i + 1) rest := by
  have hline : trimList x = if s.description = [] then [mOf s] else lineOf s := by
    rw [hx]
    exact trimList_lineOf s h1 h2
  by_cases hd : s.description = []
  · rw [if_pos hd] at hline
    cases hc : s.completed
    · have hm : mOf s = '-' := by simp [mOf, hc]
      rw [hm] at hline
      simp only [parseLines, hline]
      split
      · rw [hd]
        rfl
      · rename_i hcon
        exact absurd (Or.inl rfl) hcon
    · have hm : mOf s = '✓' := by simp [mOf, hc]
      rw [hm] at hline
      simp only [parseLines, hline]
      split
      · rw [hd]
        rfl
      · rename_i hcon
        exact absurd (Or.inr rfl) hcon
  · rw [if_neg hd] at hline
    cases hc : s.completed
    · have hm : mOf s = '-' := by simp [mOf, hc]
      have hlo : lineOf s = '-' :: ' ' :: s.description := by
        rw [← hm]
        rfl
      rw [hlo] at hline
      have hdesc : trimList (List.drop 1 ('-' :: ' ' :: s.description)) = s.description :=
        trimList_space_cons h1 h2
      simp only [parseLines, hline]
      split
      · rw [hdesc]
        rfl
      · rename_i hcon
        exact absurd (Or.inl rfl) hcon
    · have hm : mOf s = '✓' := by simp [mOf, hc]
      have hlo : lineOf s = '✓' :: ' ' :: s.description := by
        rw [← hm]
        rfl
      rw [hlo] at hline
      have hdesc : trimList (List.drop 1 ('✓' :: ' ' :: s.description)) = s.description :=
        trimList_space_cons h1 h2
      simp only [parseLines, hline]
      split
      · rw [hdesc]
        rfl
      · rename_i hcon
        exact absurd (Or.inr rfl) hcon

theorem trimRight_ne_nil_of_mem {l : Str} {c : Char} (hc : c ∈ l)
    (h : isWS c = false) : trimRight l ≠ [] := by
  intro hnil
  have := trimRight_eq_nil_iff.mp hnil c hc
  rw [h] at this
  exact Bool.false_ne_true this

theorem joinNL_cons_of_ne_nil (l : Str) {ls : List Str} (h : ls ≠ []) :
    joinNL (l :: ls) = l ++ '\n' :: joinNL ls := by
  cases ls with
  | nil => exact absurd rfl h
  | cons b t => rfl

theorem joinNL_lineOf_head (s : Step) (lsl : List Str) :
    ∃ t, joinNL (lineOf s :: lsl) = mOf s :: t := by
  cases lsl with
  | nil => exact ⟨' ' :: s.description, rfl⟩
  | cons b t => exact ⟨(' ' :: s.description) ++ '\n' :: joinNL (b :: t), rfl⟩

theorem lineOf_nl (s : Step) (h : '\n' ∉ s.description) : '\n' ∉ lineOf s := by
  intro hm
  unfold lineOf at hm
  rcases List.mem_cons.mp hm with he | hm2
  · cases hc : s.completed <;> simp [mOf, hc] at he
  · rcases List.mem_cons.mp hm2 with he2 | hm3
    · exact absurd he2 (by decide)
    · exact h hm3

theorem parse_join : ∀ (ls : List Step) (k : Nat),
    (∀ s ∈ ls, descOK s) → ls ≠ [] →
    parseLines k (splitChar '\n' (trimRight (joinNL (ls.map lineOf)))) = reId k ls
  | [], _, _, hne => absurd rfl hne
  | [s], k, h, _ => by
    obtain ⟨h1, h2, h3⟩ := h s (List.mem_singleton_self s)
    have hnl : '\n' ∉ trimRight (lineOf s) := fun m =>
      lineOf_nl s h3 (subset_of_trimRight m)
    rw [List.map_cons, List.map_nil,
      show joinNL [lineOf s] = lineOf s from rfl,
      splitChar_of_not_mem hnl,
      parseLines_cons_step k _ [] s h1 h2 (trimList_trimRight _)]
    rfl
  | s :: s2 :: ls2, k, h, _ => by
    obtain ⟨h1, h2, h3⟩ := h s (List.mem_cons_self s _)
    have hmap : (s2 :: ls2).map lineOf ≠ [] := by simp
    obtain ⟨t0, ht0⟩ := joinNL_lineOf_head s2 (ls2.map lineOf)
    have hneX : trimRight (joinNL ((s2 :: ls2).map lineOf)) ≠ [] := by
      rw [List.map_cons, ht0]
      exact trimRight_ne_nil_of_mem (List.mem_cons_self _ _) (isWS_mOf s2)
    have hne2 : trimRight ('\n' :: joinNL ((s2 :: ls2).map lineOf)) ≠ [] := by
      have hmem : mOf s2 ∈ ('\n' :: joinNL ((s2 :: ls2).map lineOf)) := by
        rw [List.map_cons, ht0]
        exact List.mem_cons_of_mem _ (List.mem_cons_self _ _)
      exact trimRight_ne_nil_of_mem hmem (isWS_mOf s2)
    rw [List.map_cons, joinNL_cons_of_ne_nil _ hmap,
      trimRight_append _ _ hne2, trimRight_cons, if_neg hneX,
      splitChar_append_cons (lineOf_nl s h3),
      parseLines_cons_step k _ _ s h1 h2 rfl,
      parse_join (s2 :: ls2) (k + 1)
        (fun x hx => h x (List.mem_cons_of_mem _ hx)) (by simp)]
    rfl

theorem insertOrd_perm (s : Step) (t : List Step) :
    (insertOrd s t).Perm (s :: t) := by
  induction t with
  | nil => exact List.Perm.refl _
  | cons b t' ih =>
    unfold insertOrd
    by_cases hb : s.order ≤ b.order
    · rw [if_pos hb]
    · rw [if_neg hb]
      exact (ih.cons b).trans (List.Perm.swap s b t')

theorem sortByOrder_perm (l : List Step) : (sortByOrder l).Perm l := by
  induction l with
  | nil => exact List.Perm.refl _
  | cons a t ih => exact (insertOrd_perm a (sortByOrder t)).trans (ih.cons a)

theorem mem_sortByOrder {x : Step} {l : List Step} :
    x ∈ sortByOrder l ↔ x ∈ l := (sortByOrder_perm l).mem_iff

theorem sortByOrder_ne_nil {l : List Step} (h : l ≠ []) : sortByOrder l ≠ [] := by
  intro hnil
  exact h (List.Perm.eq_nil ((sortByOrder_perm l).symm.trans (hnil ▸ List.Perm.refl _)))

theorem parse_format_general (ls : List Step) (h : ∀ s ∈ ls, descOK s) :
    parse_steps (format_steps ls) = reId 0 (sortByOrder ls) := by
  by_cases hnil : ls = []
  · subst hnil
    rfl
  · cases hs : sortByOrder ls with
    | nil => exact absurd hs (sortByOrder_ne_nil hnil)
    | cons s0 tl =>
      have hdesc : ∀ x ∈ s0 :: tl, descOK x := fun x hx =>
        h x (mem_sortByOrder.mp (hs ▸ hx))
      unfold format_steps
      rw [if_neg hnil, hs]
      obtain ⟨t0, ht0⟩ := joinNL_lineOf_head s0 (tl.map lineOf)
      have hmw : ¬ isWS (mOf s0) = true := by
        rw [isWS_mOf s0]
        exact Bool.false_ne_true
      have htr_head : ∃ u,
          trimRight (joinNL ((s0 :: tl).map lineOf)) = mOf s0 :: u := by
        rw [List.map_cons, ht0, trimRight_cons]
        by_cases hu : trimRight t0 = []
        · rw [if_pos hu, if_neg hmw]
          exact ⟨[], rfl⟩
        · rw [if_neg hu]
          exact ⟨trimRight t0, rfl⟩
      obtain ⟨u, hu⟩ := htr_head
      have htl : trimList (joinNL ((s0 :: tl).map lineOf)) =
          trimRight (joinNL ((s0 :: tl).map lineOf)) := by
        unfold trimList
        rw [hu]
        exact trimLeft_cons_of_neg hmw u
      unfold parse_steps
      rw [if_neg (by rw [htl, hu]; simp), htl]
      exact parse_join (s0 :: tl) 0 hdesc (by simp)

theorem wfFrom_head {k : Nat} {s : Step} {t : List Step}
    (h : wfFrom k (s :: t) = true) :
    s.id = stepIdL k ∧ s.order = k ∧ descOK s ∧ wfFrom (k + 1) t = true := by
  simp only [wfFrom, Bool.and_eq_true, beq_iff_eq] at h
  obtain ⟨⟨⟨hid, hord⟩, ⟨⟨hl, hr⟩, hnc⟩⟩, hwf⟩ := h
  refine ⟨hid, hord, ⟨hl, hr, ?_⟩, hwf⟩
  intro hm
  have helem : List.elem '\n' s.description = true := List.elem_iff.mpr hm
  have hnc' : (!(List.elem '\n' s.description)) = true := hnc
  rw [helem] at hnc'
  exact Bool.false_ne_true hnc'

theorem wfFrom_descOK {l : List Step} : ∀ {k : Nat}, wfFrom k l = true →
    ∀ s ∈ l, descOK s := by
  induction l with
  | nil =>
    intro k _ s hs
    exact absurd hs (List.not_mem_nil s)
  | cons a t ih =>
    intro k h s hs
    obtain ⟨_, _, hdesc, hwf⟩ := wfFrom_head h
    rcases List.mem_cons.mp hs with rfl | hs2
    · exact hdesc
    · exact ih hwf s hs2

theorem wfFrom_reId {l : List Step} : ∀ {k : Nat}, wfFrom k l = true →
    reId k l = l := by
  induction l with
  | nil => intro k _; rfl
  | cons a t ih =>
    intro k h
    obtain ⟨hid, hord, _, hwf⟩ := wfFrom_head h
    unfold reId
    rw [ih hwf]
    have ha : { a with id := stepIdL k, order := k } = a := by
      cases a
      simp only at hid hord
      simp [hid, hord]
    rw [ha]

theorem wfFrom_sorted {l : List Step} : ∀ {k : Nat}, wfFrom k l = true →
    sortByOrder l = l := by
  induction l with
  | nil => intro k _; rfl
  | cons a t ih =>
    intro k h
    obtain ⟨_, hord, _, hwf⟩ := wfFrom_head h
    unfold sortByOrder
    rw [ih hwf]
    cases t with
    | nil => rfl
    | cons b t' =>
      obtain ⟨_, hbord, _, _⟩ := wfFrom_head hwf
      unfold insertOrd
      rw [if_pos (by rw [hord, hbord]; exact Nat.le_succ k)]

/-- C7: for every well-formed step list (each element has id
`"step_" ++ position`, order equal to its position, and a single-line
description with no leading or trailing whitespace),
`parse_steps (format_steps steps) = steps`. -/
theorem C7_roundtrip (steps : List Step) (h : wfSteps steps = true) :
    parse_steps (format_steps steps) = steps := by
  rw [parse_format_general steps (wfFrom_descOK h), wfFrom_sorted h, wfFrom_reId h]

/-- C7 witness: the round trip on a concrete two-step list. -/
theorem C7_roundtrip_witness :
    wfSteps [⟨str "step_0", str "Research requirements", false, 0⟩,
        ⟨str "step_1", str "Create wireframes", true, 1⟩] = true ∧
      parse_steps (format_steps
          [⟨str "step_0", str "Research requirements", false, 0⟩,
            ⟨str "step_1", str "Create wireframes", true, 1⟩]) =
        [⟨str "step_0", str "Research requirements", false, 0⟩,
          ⟨str "step_1", str "Create wireframes", true, 1⟩] :=
  ⟨by decide, C7_roundtrip _ (by decide)⟩

theorem updateFirst_of_forall_neg {α : Type} {p : α → Bool} {f : α → α} :
    ∀ {l : List α}, (∀ x ∈ l, p x = false) → updateFirst p f l = l := by
  intro l h
  induction l with
  | nil => rfl
  | cons a t ih =>
    unfold updateFirst
    rw [if_neg (by rw [h a (List.mem_cons_self a t)]; exact Bool.false_ne_true),
      ih (fun x hx => h x (List.mem_cons_of_mem _ hx))]

theorem updateFirst_append {α : Type} (p : α → Bool) (f : α → α) :
    ∀ (l1 : List α) (r : α) (l2 : List α),
    (∀ x ∈ l1, p x = false) → p r = true →
    updateFirst p f (l1 ++ r :: l2) = l1 ++ f r :: l2
  | [], r, l2, _, hr => by
    rw [List.nil_append, List.nil_append]
    simp only [updateFirst, if_pos hr]
  | a :: t, r, l2, h, hr => by
    have ha : ¬ p a = true := by
      rw [h a (List.mem_cons_self a t)]
      exact Bool.false_ne_true
    rw [List.cons_append, List.cons_append]
    simp only [updateFirst, if_neg ha]
    rw [updateFirst_append p f t r l2
      (fun x hx => h x (List.mem_cons_of_mem _ hx)) hr]

theorem floor_half_rat : ⌊(1 / 2 : ℚ)⌋ = 0 := by
  rw [Int.floor_eq_zero_iff]
  constructor <;> norm_num

theorem round2_twoDec {q : ℚ} (h : TwoDec q) : round2 q = q := by
  obtain ⟨n, rfl⟩ := h
  unfold round2
  rw [div_mul_cancel₀ _ (by norm_num : (100 : ℚ) ≠ 0), Int.floor_int_add,
    floor_half_rat]
  norm_num

theorem round2_nonneg {q : ℚ} (h : 0 ≤ q) : 0 ≤ round2 q := by
  unfold round2
  have hf : (0 : ℤ) ≤ ⌊q * 100 + 1 / 2⌋ := by
    apply Int.le_floor.mpr
    push_cast
    positivity
  have : (0 : ℚ) ≤ (⌊q * 100 + 1 / 2⌋ : ℚ) := by exact_mod_cast hf
  positivity

theorem round2_one : round2 1 = 1 := round2_twoDec ⟨100, by norm_num⟩

theorem round2_zero : round2 0 = 0 := round2_twoDec ⟨0, by norm_num⟩

/-- C5: on a task present in the table (given with the first-match
decomposition `l1 ++ r :: l2`), `update_todo_status` to `"done"` sets
`completed_at` to the injected current date and auto-logs hours — to
`estimated_hours` when positive, otherwise setting both fields to 1.0 — and
any other status clears `completed_at`.  The hypotheses `TwoDec` and
non-negativity record that the stored estimate is a two-decimal store value
as the data model requires. -/
theorem C5_status_transitions (today todo_id s : Str) (l1 l2 : List TaskRow)
    (r : TaskRow)
    (hfirst : ∀ x ∈ l1, x.id ≠ todo_id) (hid : r.id = todo_id)
    (hest : TwoDec r.estimated_hours) (hnn : 0 ≤ r.estimated_hours) :
    update_todo_status today todo_id (str "done") (l1 ++ r :: l2) =
      l1 ++ { r with
        status := str "done"
        completed_at := today
        estimated_hours :=
          if r.hours_logged = 0 ∧ r.estimated_hours = 0 then 1
          else r.estimated_hours
        hours_logged :=
          if r.hours_logged = 0 then
            (if 0 < r.estimated_hours then r.estimated_hours else 1)
          else r.hours_logged } :: l2 ∧
    (s ≠ str "done" →
      update_todo_status today todo_id s (l1 ++ r :: l2) =
        l1 ++ { r with status := s, completed_at := [] } :: l2) := by
  have hp : ∀ x ∈ l1, (fun r' => r'.id == todo_id) x = false := by
    intro x hx
    exact beq_eq_false_iff_ne.mpr (hfirst x hx)
  have hpr : ((fun r' => r'.id == todo_id) r) = true := beq_iff_eq.mpr hid
  constructor
  · unfold update_todo_status
    rw [updateFirst_append _ _ l1 r l2 hp hpr]
    unfold statusTransform
    rw [if_pos rfl]
    by_cases hh : r.hours_logged = 0
    · by_cases he : r.estimated_hours = 0
      · simp [hh, he, round2_one]
      · have hpos : 0 < r.estimated_hours := lt_of_le_of_ne hnn (Ne.symm he)
        simp [hh, he, hpos, round2_twoDec hest]
    · simp [hh]
  · intro hs
    unfold update_todo_status
    rw [updateFirst_append _ _ l1 r l2 hp hpr]
    unfold statusTransform
    rw [if_neg hs]

/-- C5 witness: the theorem applied to a one-row table with estimate 2 and no
logged hours. -/
theorem C5_status_transitions_witness :
    ((∀ x ∈ ([] : List TaskRow), x.id ≠ str "a") ∧
        (wrow 2 0 (str "todo") [] []).id = str "a" ∧
        TwoDec (wrow 2 0 (str "todo") [] []).estimated_hours ∧
        (0 : ℚ) ≤ (wrow 2 0 (str "todo") [] []).estimated_hours) ∧
      (update_todo_status (str "2025-01-02") (str "a") (str "done")
          ([] ++ wrow 2 0 (str "todo") [] [] :: []) =
        [] ++ { wrow 2 0 (str "todo") [] [] with
          status := str "done"
          completed_at := str "2025-01-02"
          estimated_hours :=
            if (wrow 2 0 (str "todo") [] []).hours_logged = 0 ∧
                (wrow 2 0 (str "todo") [] []).estimated_hours = 0 then 1
            else (wrow 2 0 (str "todo") [] []).estimated_hours
          hours_logged :=
            if (wrow 2 0 (str "todo") [] []).hours_logged = 0 then
              (if 0 < (wrow 2 0 (str "todo") [] []).estimated_hours then
                (wrow 2 0 (str "todo") [] []).estimated_hours else 1)
            else (wrow 2 0 (str "todo") [] []).hours_logged } :: [] ∧
      (str "todo" ≠ str "done" →
        update_todo_status (str "2025-01-02") (str "a") (str "todo")
            ([] ++ wrow 2 0 (str "todo") [] [] :: []) =
          [] ++ { wrow 2 0 (str "todo") [] [] with
            status := str "todo"
            completed_at := [] } :: [])) :=
  ⟨⟨by simp, rfl, ⟨200, by norm_num [wrow]⟩, by norm_num [wrow]⟩,
    C5_status_transitions (str "2025-01-02") (str "a") (str "todo") [] []
      (wrow 2 0 (str "todo") [] []) (by simp) rfl ⟨200, by norm_num [wrow]⟩
      (by norm_num [wrow])⟩

/-- C6: on a task with a non-empty parsed step list (first-match
decomposition `l1 ++ r :: l2`), when marking step `step_id` completed makes
every step of the updated list completed, `update_todo_step` forces the
status to done, sets `completed_at` to the injected current date (non-empty),
and auto-logs hours: if `hours_logged` was 0 it becomes `estimated_hours`,
with `estimated_hours` first defaulted to 1.0 if it was 0. -/
theorem C6_steps_autocomplete (today todo_id step_id : Str)
    (l1 l2 : List TaskRow) (r : TaskRow)
    (hfirst : ∀ x ∈ l1, x.id ≠ todo_id) (hid : r.id = todo_id)
    (htoday : today ≠ [])
    (hne : parse_steps r.steps ≠ [])
    (hall : (updateFirst (fun s => s.id == step_id)
        (fun s => { s with completed := true }) (parse_steps r.steps)).all
        (fun s => s.completed) = true)
    (hest : TwoDec r.estimated_hours) :
    update_todo_step today todo_id step_id true (l1 ++ r :: l2) =
      l1 ++ { r with
        steps := format_steps (updateFirst (fun s => s.id == step_id)
          (fun s => { s with completed := true }) (parse_steps r.steps))
        status := str "done"
        completed_at := today
        estimated_hours :=
          if r.hours_logged = 0 ∧ r.estimated_hours = 0 then 1
          else r.estimated_hours
        hours_logged :=
          if r.hours_logged = 0 then
            (if r.estimated_hours = 0 then 1 else r.estimated_hours)
          else r.hours_logged } :: l2 ∧
    ({ r with
        steps := format_steps (updateFirst (fun s => s.id == step_id)
          (fun s => { s with completed := true }) (parse_steps r.steps))
        status := str "done"
        completed_at := today
        estimated_hours :=
          if r.hours_logged = 0 ∧ r.estimated_hours = 0 then 1
          else r.estimated_hours
        hours_logged :=
          if r.hours_logged = 0 then
            (if r.estimated_hours = 0 then 1 else r.estimated_hours)
          else r.hours_logged } : TaskRow).completed_at ≠ [] := by
  have hp : ∀ x ∈ l1, (fun r' => r'.id == todo_id) x = false := by
    intro x hx
    exact beq_eq_false_iff_ne.mpr (hfirst x hx)
  have hpr : ((fun r' => r'.id == todo_id) r) = true := beq_iff_eq.mpr hid
  have hsne : updateFirst (fun s => s.id == step_id)
      (fun s => { s with completed := true }) (parse_steps r.steps) ≠ [] := by
    cases hps : parse_steps r.steps with
    | nil => exact absurd hps hne
    | cons a t =>
      simp only [updateFirst]
      by_cases hpa : ((fun s => s.id == step_id) a) = true
      · rw [if_pos hpa]
        simp
      · rw [if_neg hpa]
        simp
  refine ⟨?_, htoday⟩
  unfold update_todo_step
  rw [updateFirst_append _ _ l1 r l2 hp hpr]
  simp only [stepTransform]
  rw [if_pos ⟨hsne, hall⟩]
  by_cases hh : r.hours_logged = 0
  · by_cases he : r.estimated_hours = 0
    · simp [hh, he, round2_one]
    · simp [hh, he, round2_twoDec hest]
  · simp [hh]

/-- C6 witness: marking the only (hence last incomplete) step of a concrete
one-step task complete. -/
theorem C6_steps_autocomplete_witness :
    ((str "2025-01-02" : Str) ≠ [] ∧
        parse_steps (wrow 2 0 (str "todo") (str "- a") []).steps ≠ [] ∧
        (updateFirst (fun s => s.id == str "step_0")
          (fun s => { s with completed := true })
          (parse_steps (wrow 2 0 (str "todo") (str "- a") []).steps)).all
          (fun s => s.completed) = true) ∧
      update_todo_step (str "2025-01-02") (str "a") (str "step_0") true
          ([] ++ wrow 2 0 (str "todo") (str "- a") [] :: []) =
        [] ++ { wrow 2 0 (str "todo") (str "- a") [] with
          steps := format_steps (updateFirst (fun s => s.id == str "step_0")
            (fun s => { s with completed := true })
            (parse_steps (wrow 2 0 (str "todo") (str "- a") []).steps))
          status := str "done"
          completed_at := str "2025-01-02"
          estimated_hours :=
            if (wrow 2 0 (str "todo") (str "- a") []).hours_logged = 0 ∧
                (wrow 2 0 (str "todo") (str "- a") []).estimated_hours = 0
            then 1
            else (wrow 2 0 (str "todo") (str "- a") []).estimated_hours
          hours_logged :=
            if (wrow 2 0 (str "todo") (str "- a") []).hours_logged = 0 then
              (if (wrow 2 0 (str "todo") (str "- a") []).estimated_hours = 0
                then 1
                else (wrow 2 0 (str "todo") (str "- a") []).estimated_hours)
            else (wrow 2 0 (str "todo") (str "- a") []).hours_logged } :: [] :=
  ⟨⟨by decide, by decide, by decide⟩,
    (C6_steps_autocomplete (str "2025-01-02") (str "a") (str "step_0") [] []
      (wrow 2 0 (str "todo") (str "- a") []) (by simp) rfl (by decide)
      (by decide) (by decide) ⟨200, by norm_num [wrow]⟩).1⟩

/-- C10: a single-record mutation aimed at an id that matches no row leaves
the stored table exactly unchanged; each modelled operation is a total
function, so no error is raised and no failure is reported. -/
theorem C10_frame (today todo_id status due step_id : Str)
    (completed : Bool) (delta est : ℚ) (v : DateArg)
    (parseDateO : Str → Option Str) (rows : List TaskRow)
    (h : ∀ r ∈ rows, r.id ≠ todo_id) :
    update_todo_status today todo_id status rows = rows ∧
      update_todo_hours todo_id delta rows = rows ∧
      update_todo_estimated_hours todo_id est rows = rows ∧
      update_todo_due_date todo_id due rows = rows ∧
      update_todo_completed_at parseDateO todo_id v rows = rows ∧
      update_todo_step today todo_id step_id completed rows = rows ∧
      delete_todo todo_id rows = rows := by
  have hp : ∀ x ∈ rows, ((fun r : TaskRow => r.id == todo_id) x) = false :=
    fun x hx => beq_eq_false_iff_ne.mpr (h x hx)
  refine ⟨?_, ?_, ?_, ?_, ?_, ?_, ?_⟩
  · exact updateFirst_of_forall_neg hp
  · exact updateFirst_of_forall_neg hp
  · exact updateFirst_of_forall_neg hp
  · exact updateFirst_of_forall_neg hp
  · exact updateFirst_of_forall_neg hp
  · exact updateFirst_of_forall_neg hp
  · unfold delete_todo
    apply List.filter_eq_self.mpr
    intro a ha
    have hb : (a.id == todo_id) = false := hp a ha
    rw [hb]
    rfl

/-- C10 witness: all seven operations on a one-row table with a
non-matching id. -/
theorem C10_frame_witness :
    (∀ r ∈ [wrow 2 0 (str "todo") [] []], r.id ≠ str "b") ∧
      (update_todo_status (str "2025-01-02") (str "b") (str "done")
          [wrow 2 0 (str "todo") [] []] = [wrow 2 0 (str "todo") [] []] ∧
        update_todo_hours (str "b") 1 [wrow 2 0 (str "todo") [] []] =
          [wrow 2 0 (str "todo") [] []] ∧
        update_todo_estimated_hours (str "b") 1 [wrow 2 0 (str "todo") [] []] =
          [wrow 2 0 (str "todo") [] []] ∧
        update_todo_due_date (str "b") (str "2025-02-01")
          [wrow 2 0 (str "todo") [] []] = [wrow 2 0 (str "todo") [] []] ∧
        update_todo_completed_at (fun _ => none) (str "b")
          (DateArg.text (str "2025-01-01")) [wrow 2 0 (str "todo") [] []] =
          [wrow 2 0 (str "todo") [] []] ∧
        update_todo_step (str "2025-01-02") (str "b") (str "step_0") true
          [wrow 2 0 (str "todo") [] []] = [wrow 2 0 (str "todo") [] []] ∧
        delete_todo (str "b") [wrow 2 0 (str "todo") [] []] =
          [wrow 2 0 (str "todo") [] []]) :=
  ⟨by decide,
    C10_frame (str "2025-01-02") (str "b") (str "done") (str "2025-02-01")
      (str "step_0") true 1 1 (DateArg.text (str "2025-01-01"))
      (fun _ => none) [wrow 2 0 (str "todo") [] []] (by decide)⟩

/-- C4: when the category/project/task triple is not wholly present and some
required column is absent, `import_todos_csv` returns `ok = false` with a
message listing exactly the absent required columns, and the stored table is
unchanged; in particular a CSV header missing only `priority` (with no
triple) yields `ok = false` listing `priority`. -/
theorem C4_missing_columns (now : Str) (genId : Nat → Str)
    (parseDateO : Str → Option Str) (fieldnames : List Str)
    (rows : List CsvRow) (mode : Mode) (existing : List TaskRow)
    (htriple : ¬ tripleCols.all (fun tc => fieldnames.contains tc) = true)
    (hmiss : ∃ c ∈ requiredCols, fieldnames.contains c = false) :
    import_todos_csv now genId parseDateO fieldnames rows mode existing =
      Except.ok ({
        ok := false
        error := str "Missing required columns: " ++ joinWith (str ", ")
          (requiredCols.filter (fun c => !(fieldnames.contains c)))
        added := 0
        total := 0 }, existing) ∧
    import_todos_csv now genId parseDateO hdrNoPriority rows mode existing =
      Except.ok ({
        ok := false
        error := str "Missing required columns: priority"
        added := 0
        total := 0 }, existing) := by
  constructor
  · have hb : tripleCols.all (fun tc => fieldnames.contains tc) = false := by
      cases hx : tripleCols.all (fun tc => fieldnames.contains tc)
      · rfl
      · exact absurd hx htriple
    have hmc : missingCore fieldnames =
        requiredCols.filter (fun c => !(fieldnames.contains c)) := by
      unfold missingCore
      rw [hb]
      simp
    have hne : requiredCols.filter (fun c => !(fieldnames.contains c)) ≠ [] := by
      obtain ⟨c, hcm, hcf⟩ := hmiss
      intro hnil
      have hmem : c ∈ requiredCols.filter (fun c => !(fieldnames.contains c)) :=
        List.mem_filter.mpr ⟨hcm, by rw [hcf]; rfl⟩
      rw [hnil] at hmem
      exact absurd hmem (List.not_mem_nil c)
    unfold import_todos_csv
    rw [hmc, if_neg hne]
  · have h1 : missingCore hdrNoPriority = [str "priority"] := by decide
    have h2 : str "Missing required columns: " ++
        joinWith (str ", ") [str "priority"] =
        str "Missing required columns: priority" := by decide
    unfold import_todos_csv
    rw [h1, if_neg (by decide), h2]

/-- C4 witness: the theorem at the concrete priority-less header with an
empty CSV body and empty store. -/
theorem C4_missing_columns_witness :
    ((¬ tripleCols.all (fun tc => hdrNoPriority.contains tc) = true) ∧
        (∃ c ∈ requiredCols, hdrNoPriority.contains c = false)) ∧
      (import_todos_csv [] (fun _ => []) (fun _ => none) hdrNoPriority []
          Mode.append [] =
        Except.ok ({
          ok := false
          error := str "Missing required columns: " ++ joinWith (str ", ")
            (requiredCols.filter (fun c => !(hdrNoPriority.contains c)))
          added := 0
          total := 0 }, []) ∧
      import_todos_csv [] (fun _ => []) (fun _ => none) hdrNoPriority []
          Mode.append [] =
        Except.ok ({
          ok := false
          error := str "Missing required columns: priority"
          added := 0
          total := 0 }, [])) :=
  ⟨⟨by decide, by decide⟩,
    C4_missing_columns [] (fun _ => []) (fun _ => none) hdrNoPriority []
      Mode.append [] (by decide) (by decide)⟩

/-- C8 counterexample: with every required column present, a row whose
`estimated_hours` field is the malformed non-blank string `"abc"` makes
the import terminate with an uncaught `ValueError` (Python `float("abc")`),
not
with the field coerced to 0 and not with a structured result. -/
theorem C8_counterexample :
    import_todos_csv [] (fun _ => []) (fun _ => none) requiredCols
        [[(str "title", str "t"), (str "estimated_hours", str "abc")]]
        Mode.append [] =
      Except.error PyExn.valueError := by rfl

theorem importRows_error (now : Str) (genId : Nat → Str)
    (parseDateO : Str → Option Str) :
    ∀ (i : Nat) (rows : List CsvRow) (acc : List TaskRow) (added : Nat),
    (∃ row ∈ rows, effTitle row ≠ [] ∧
      (pyFloatOrZero (getCol row (str "estimated_hours")) = none ∨
        pyFloatOrZero (getCol row (str "hours_logged")) = none)) →
    importRows now genId parseDateO i rows acc added =
      Except.error PyExn.valueError
  | _, [], _, _, h => by
    obtain ⟨row, hm, _⟩ := h
    exact absurd hm (List.not_mem_nil row)
  | i, row :: rest, acc, added, h => by
    by_cases hbad : effTitle row ≠ [] ∧
        (pyFloatOrZero (getCol row (str "estimated_hours")) = none ∨
          pyFloatOrZero (getCol row (str "hours_logged")) = none)
    · have hir : importRow now (genId i) parseDateO row =
          Except.error PyExn.valueError := by
        obtain ⟨ht, hnum⟩ := hbad
        unfold importRow
        rw [if_neg ht]
        rcases hnum with he | hh
        · rw [he]
        · cases hep : pyFloatOrZero (getCol row (str "estimated_hours")) with
          | none => rfl
          | some q => rw [hh]
      simp only [importRows, hir]
    · have hrest : ∃ row' ∈ rest, effTitle row' ≠ [] ∧
          (pyFloatOrZero (getCol row' (str "estimated_hours")) = none ∨
            pyFloatOrZero (getCol row' (str "hours_logged")) = none) := by
        obtain ⟨row', hm, hprop⟩ := h
        rcases List.mem_cons.mp hm with rfl | hm2
        · exact absurd hprop hbad
        · exact ⟨row', hm2, hprop⟩
      cases hir : importRow now (genId i) parseDateO row with
      | error e =>
        cases e
        simp only [importRows, hir]
      | ok o =>
        cases o with
        | none =>
          simp only [importRows, hir]
          exact importRows_error now genId parseDateO (i + 1) rest acc added
            hrest
        | some r =>
          simp only [importRows, hir]
          exact importRows_error now genId parseDateO (i + 1) rest
            (acc ++ [r]) (added + 1) hrest

/-- C8 amended: blank or missing numeric fields are coerced to 0, but a
malformed non-blank `estimated_hours` or `hours_logged` on any row with a
nonempty effective title makes `import_todos_csv` terminate with an uncaught
`ValueError` before anything is written; only the other failure modes are
reported through the structured ok/error result. -/
theorem C8_amended :
    (∀ (now idGen : Str) (parseDateO : Str → Option Str) (row : CsvRow),
      effTitle row ≠ [] →
      getCol row (str "estimated_hours") = [] →
      getCol row (str "hours_logged") = [] →
      ∃ r', importRow now idGen parseDateO row = Except.ok (some r') ∧
        r'.estimated_hours = 0 ∧ r'.hours_logged = 0) ∧
    (∀ (now : Str) (genId : Nat → Str) (parseDateO : Str → Option Str)
      (fieldnames : List Str) (rows : List CsvRow) (mode : Mode)
      (existing : List TaskRow),
      missingCore fieldnames = [] →
      (∃ row ∈ rows, effTitle row ≠ [] ∧
        (pyFloatOrZero (getCol row (str "estimated_hours")) = none ∨
          pyFloatOrZero (getCol row (str "hours_logged")) = none)) →
      import_todos_csv now genId parseDateO fieldnames rows mode existing =
        Except.error PyExn.valueError) := by
  constructor
  · intro now idGen parseDateO row hti hest hhrs
    unfold importRow
    rw [if_neg hti, hest, hhrs]
    exact ⟨_, rfl, round2_zero, round2_zero⟩
  · intro now genId parseDateO fieldnames rows mode existing hmc hbad
    unfold import_todos_csv
    rw [hmc, if_pos rfl]
    cases mode with
    | append =>
      have he := importRows_error now genId parseDateO 0 rows existing 0 hbad
      simp only [he]
    | replace =>
      have he := importRows_error now genId parseDateO 0 rows [] 0 hbad
      simp only [he]

/-- C8 amended witness: a concrete row with a nonempty title and blank
numeric fields imports with both hour fields 0, and the concrete malformed
input from the counterexample raises. -/
theorem C8_amended_witness :
    (effTitle [(str "title", str "t")] ≠ [] ∧
        getCol [(str "title", str "t")] (str "estimated_hours") = [] ∧
        getCol [(str "title", str "t")] (str "hours_logged") = []) ∧
      (∃ r', importRow [] [] (fun _ => none) [(str "title", str "t")] =
          Except.ok (some r') ∧
        r'.estimated_hours = 0 ∧ r'.hours_logged = 0) :=
  ⟨⟨by decide, by decide, by decide⟩,
    C8_amended.1 [] [] (fun _ => none) [(str "title", str "t")] (by decide)
      (by decide) (by decide)⟩

theorem mem_updateFirst {α : Type} {p : α → Bool} {f : α → α} :
    ∀ {l : List α} {x : α}, x ∈ updateFirst p f l → x ∈ l ∨ ∃ y ∈ l, x = f y := by
  intro l
  induction l with
  | nil =>
    intro x hx
    exact absurd hx (List.not_mem_nil x)
  | cons a t ih =>
    intro x hx
    by_cases hpa : p a = true
    · rw [show updateFirst p f (a :: t) = f a :: t from by
        simp only [updateFirst, if_pos hpa]] at hx
      rcases List.mem_cons.mp hx with rfl | hx2
      · exact Or.inr ⟨a, List.mem_cons_self a t, rfl⟩
      · exact Or.inl (List.mem_cons_of_mem _ hx2)
    · rw [show updateFirst p f (a :: t) = a :: updateFirst p f t from by
        simp only [updateFirst, if_neg hpa]] at hx
      rcases List.mem_cons.mp hx with rfl | hx2
      · exact Or.inl (List.mem_cons_self _ _)
      · rcases ih hx2 with h1 | ⟨y, hy, hyx⟩
        · exact Or.inl (List.mem_cons_of_mem _ h1)
        · exact Or.inr ⟨y, List.mem_cons_of_mem _ hy, hyx⟩

theorem map_updateFirst {α β : Type} (g : α → β) (p : α → Bool) (f : α → α)
    (hgf : ∀ r, g (f r) = g r) :
    ∀ (l : List α), (updateFirst p f l).map g = l.map g
  | [] => rfl
  | a :: t => by
    by_cases hpa : p a = true
    · simp only [updateFirst, if_pos hpa, List.map_cons, hgf a]
    · simp only [updateFirst, if_neg hpa, List.map_cons,
        map_updateFirst g p f hgf t]

theorem Invariant_updateFirst {p : TaskRow → Bool} {f : TaskRow → TaskRow}
    (hf : ∀ r, RowInv r → RowInv (f r)) (hid : ∀ r, (f r).id = r.id)
    {rows : List TaskRow} (hinv : Invariant rows) :
    Invariant (updateFirst p f rows) := by
  obtain ⟨hall, hnd⟩ := hinv
  constructor
  · intro r hr
    rcases mem_updateFirst hr with h1 | ⟨y, hy, rfl⟩
    · exact hall r h1
    · exact hf y (hall y hy)
  · rw [map_updateFirst (fun r => r.id) p f hid rows]
    exact hnd

theorem reId_all_completed : ∀ (k : Nat) (ls : List Step),
    (reId k ls).all (fun s => s.completed) = ls.all (fun s => s.completed)
  | _, [] => rfl
  | k, s :: t => by
    simp only [reId, List.all_cons, reId_all_completed (k + 1) t]

theorem all_eq_of_perm {l1 l2 : List Step} (h : l1.Perm l2) (q : Step → Bool) :
    l1.all q = l2.all q := by
  rw [Bool.eq_iff_iff, List.all_eq_true, List.all_eq_true]
  constructor <;> intro hh x hx
  · exact hh x (h.mem_iff.mpr hx)
  · exact hh x (h.mem_iff.mp hx)

theorem parseLines_descOK : ∀ (i : Nat) (lines : List Str),
    (∀ line ∈ lines, ('\n' : Char) ∉ line) →
    ∀ s ∈ parseLines i lines, descOK s
  | _, [], _ => by
    intro s hs
    exact absurd hs (List.not_mem_nil s)
  | i, line :: rest, h => by
    have hrest := parseLines_descOK (i + 1) rest
      (fun x hx => h x (List.mem_cons_of_mem _ hx))
    simp only [parseLines]
    split
    · intro s hs
      rcases List.mem_cons.mp hs with rfl | hs2
      · refine ⟨trimLeft_trimList _, trimRight_trimList _, ?_⟩
        intro hm
        exact h line (List.mem_cons_self _ _)
          (subset_of_trimList (List.drop_subset 1 (trimList line)
            (subset_of_trimList hm)))
      · exact hrest s hs2
    · intro s hs
      exact hrest s hs

theorem parse_steps_descOK (x : Str) : ∀ s ∈ parse_steps x, descOK s := by
  unfold parse_steps
  split
  · intro s hs
    exact absurd hs (List.not_mem_nil s)
  · intro s hs
    exact parseLines_descOK 0 _
      (fun line hl => not_mem_of_mem_splitChar hl) s hs

theorem updateFirst_descOK {p : Step → Bool} {b : Bool} {l : List Step}
    (h : ∀ s ∈ l, descOK s) :
    ∀ s ∈ updateFirst p (fun s => { s with completed := b }) l, descOK s := by
  intro s hs
  rcases mem_updateFirst hs with hs1 | ⟨y, hy, rfl⟩
  · exact h s hs1
  · obtain ⟨d1, d2, d3⟩ := h y hy
    exact ⟨d1, d2, d3⟩

theorem stepTransform_rowInv (today step_id : Str) (completed : Bool)
    (r : TaskRow) (h : RowInv r) :
    RowInv (stepTransform today step_id completed r) := by
  obtain ⟨h1, h2, h3, h4⟩ := h
  have hdone : ¬ (str "done" = str "todo") := by decide
  simp only [stepTransform]
  split
  · rename_i hfired
    split
    · split
      · have hr1 : (0 : ℚ) ≤ round2 1 := by
          rw [round2_one]
          norm_num
        have hr2 : (0 : ℚ) ≤ 1 := by norm_num
        exact ⟨hr1, hr2, fun habs => absurd habs hdone, fun _ => rfl⟩
      · exact ⟨round2_nonneg h2, h2, fun habs => absurd habs hdone,
          fun _ => rfl⟩
    · exact ⟨h1, h2, fun habs => absurd habs hdone, fun _ => rfl⟩
  · rename_i hnotfired
    refine ⟨h1, h2, h3, ?_⟩
    intro hfive
    obtain ⟨hne', hall'⟩ := hfive
    by_cases hnil : updateFirst (fun s => s.id == step_id)
        (fun s => { s with completed := completed })
        (parse_steps r.steps) = []
    · exfalso
      apply hne'
      have : parse_steps (format_steps (updateFirst (fun s => s.id == step_id)
          (fun s => { s with completed := completed })
          (parse_steps r.steps))) = parse_steps (format_steps []) := by
        rw [hnil]
      exact this
    · exfalso
      apply hnotfired
      refine ⟨hnil, ?_⟩
      have hdok : ∀ s ∈ updateFirst (fun s => s.id == step_id)
          (fun s => { s with completed := completed })
          (parse_steps r.steps), descOK s :=
        updateFirst_descOK (parse_steps_descOK r.steps)
      have hall2 : (parse_steps (format_steps
          (updateFirst (fun s => s.id == step_id)
            (fun s => { s with completed := completed })
            (parse_steps r.steps)))).all (fun s => s.completed) = true := hall'
      rw [parse_format_general _ hdok, reId_all_completed,
        all_eq_of_perm (sortByOrder_perm _)] at hall2
      exact hall2

/-- C9 counterexample: a one-row table satisfying the invariant where the
single task is done with its single step completed; moving it back to todo
with `update_todo_status` leaves a non-empty fully-completed step list on a
todo task, violating the invariant. -/
theorem C9_counterexample :
    Invariant [wrow 1 1 (str "done") (str "✓ x") (str "2025-01-02")] ∧
      ¬ Invariant (update_todo_status (str "2025-01-03") (str "a")
        (str "todo") [wrow 1 1 (str "done") (str "✓ x") (str "2025-01-02")]) := by
  constructor
  · decide
  · decide

theorem stepTransform_id (today step_id : Str) (completed : Bool)
    (r : TaskRow) : (stepTransform today step_id completed r).id = r.id := by
  simp only [stepTransform]
  split
  · split
    · split <;> rfl
    · rfl
  · rfl

/-- C9 amended: the section 3 invariant is preserved by the hours, estimate,
due-date and step updates and by delete; it is not preserved by
`update_todo_status` (see the counterexample), nor by
`update_todo_completed_at` (which sets a non-empty `completed_at` on a todo
task), `add_todo` (which accepts a negative estimate), or `import_todos_csv`
(which can insert a row duplicating an existing id). -/
theorem C9_amended (rows : List TaskRow) (hinv : Invariant rows)
    (today todo_id due step_id : Str) (delta est : ℚ) (completed : Bool) :
    (Invariant (update_todo_hours todo_id delta rows) ∧
      Invariant (update_todo_estimated_hours todo_id est rows) ∧
      Invariant (update_todo_due_date todo_id due rows) ∧
      Invariant (update_todo_step today todo_id step_id completed rows) ∧
      Invariant (delete_todo todo_id rows)) ∧
    (Invariant [wrow 1 0 (str "todo") [] []] ∧
      ¬ Invariant (update_todo_completed_at (fun _ => none) (str "a")
        (DateArg.dateObj (str "2025-01-01")) [wrow 1 0 (str "todo") [] []]) ∧
      Invariant ([] : List TaskRow) ∧
      ¬ Invariant (add_todo [] (str "g") (str "t") (str "2025-01-10") (-3)
        (str "Medium") [] []) ∧
      import_todos_csv [] (fun _ => []) (fun _ => none) requiredCols
          [[(str "title", str "t"), (str "id", str "a")]] Mode.append
          [wrow 1 0 (str "todo") [] []] =
        Except.ok ({ ok := true, error := [], added := 1, total := 2 },
          [wrow 1 0 (str "todo") [] [], impRow]) ∧
      ¬ Invariant [wrow 1 0 (str "todo") [] [], impRow]) := by
  refine ⟨⟨?_, ?_, ?_, ?_, ?_⟩,
    by decide, by decide, by decide, ?_, by rfl, ?_⟩
  · unfold update_todo_hours
    refine Invariant_updateFirst ?_ ?_ hinv
    · exact fun r hr => ⟨round2_nonneg (le_max_left 0 _), hr.2.1, hr.2.2.1,
        hr.2.2.2⟩
    · exact fun r => rfl
  · unfold update_todo_estimated_hours
    refine Invariant_updateFirst ?_ ?_ hinv
    · exact fun r hr => ⟨hr.1, round2_nonneg (le_max_left 0 _), hr.2.2.1,
        hr.2.2.2⟩
    · exact fun r => rfl
  · unfold update_todo_due_date
    refine Invariant_updateFirst ?_ ?_ hinv
    · exact fun r hr => ⟨hr.1, hr.2.1, hr.2.2.1, hr.2.2.2⟩
    · exact fun r => rfl
  · unfold update_todo_step
    refine Invariant_updateFirst ?_ ?_ hinv
    · exact fun r hr => stepTransform_rowInv today step_id completed r hr
    · exact fun r => stepTransform_id today step_id completed r
  · unfold delete_todo
    obtain ⟨hall, hnd⟩ := hinv
    refine ⟨?_, ?_⟩
    · intro r hr
      exact hall r (List.mem_of_mem_filter hr)
    · exact List.Nodup.sublist
        (List.Sublist.map _ (List.filter_sublist rows)) hnd
  · intro hbad
    obtain ⟨hall, _⟩ := hbad
    have hmem : ({
        id := str "g"
        title := trimList (str "t")
        due_date := str "2025-01-10"
        estimated_hours := round2 (-3)
        hours_logged := round2 0
        priority := str "Medium"
        status := str "todo"
        steps := trimList []
        created_at := []
        completed_at := [] } : TaskRow) ∈
        add_todo [] (str "g") (str "t") (str "2025-01-10") (-3)
          (str "Medium") [] [] := by
      unfold add_todo
      rw [List.nil_append]
      exact List.mem_singleton_self _
    have hge : (0 : ℚ) ≤ round2 (-3) := (hall _ hmem).2.1
    rw [round2_twoDec ⟨-300, by norm_num⟩] at hge
    norm_num at hge
  · intro hbad
    have hnd := hbad.2
    rw [List.map_cons, List.map_cons, List.map_nil] at hnd
    have h1 := (List.nodup_cons.mp hnd).1
    apply h1
    rw [show (wrow 1 0 (str "todo") [] []).id = str "a" from rfl,
      show impRow.id = str "a" from rfl]
    exact List.mem_singleton_self _

/-- C9 amended witness: the preservation conjunction applied to a concrete
one-row table satisfying the invariant. -/
theorem C9_amended_witness :
    Invariant [wrow 1 0 (str "todo") [] []] ∧
      ((Invariant (update_todo_hours (str "a") 1
          [wrow 1 0 (str "todo") [] []]) ∧
        Invariant (update_todo_estimated_hours (str "a") 2
          [wrow 1 0 (str "todo") [] []]) ∧
        Invariant (update_todo_due_date (str "a") (str "2025-02-01")
          [wrow 1 0 (str "todo") [] []]) ∧
        Invariant (update_todo_step (str "2025-01-03") (str "a")
          (str "step_0") true [wrow 1 0 (str "todo") [] []]) ∧
        Invariant (delete_todo (str "a") [wrow 1 0 (str "todo") [] []])) ∧
      (Invariant [wrow 1 0 (str "todo") [] []] ∧
        ¬ Invariant (update_todo_completed_at (fun _ => none) (str "a")
          (DateArg.dateObj (str "2025-01-01"))
          [wrow 1 0 (str "todo") [] []]) ∧
        Invariant ([] : List TaskRow) ∧
        ¬ Invariant (add_todo [] (str "g") (str "t") (str "2025-01-10") (-3)
          (str "Medium") [] []) ∧
        import_todos_csv [] (fun _ => []) (fun _ => none) requiredCols
            [[(str "title", str "t"), (str "id", str "a")]] Mode.append
            [wrow 1 0 (str "todo") [] []] =
          Except.ok ({ ok := true, error := [], added := 1, total := 2 },
            [wrow 1 0 (str "todo") [] [], impRow]) ∧
        ¬ Invariant [wrow 1 0 (str "todo") [] [], impRow])) :=
  ⟨by decide,
    C9_amended [wrow 1 0 (str "todo") [] []] (by decide) (str "2025-01-03")
      (str "a") (str "2025-02-01") (str "step_0") 1 2 true⟩
